import Mathlib

/-!
Verification of the album ingestion/retrieval backend (src/backend/php/helpers.php).
PHP strings are modelled as `List Char`; PHP floats as `ℚ`; filesystem and HTTP
effects as explicit traces.
-/

namespace Quintessence

set_option maxRecDepth 16384

/-! Character-level utilities modelling the PHP string primitives. -/

/-- PHP strtolower on one byte: only ASCII A–Z are lowered. -/
def lowerChar (c : Char) : Char :=
  if 'A' ≤ c ∧ c ≤ 'Z' then Char.ofNat (c.toNat + 32) else c

/-- PHP strtolower over a whole string. -/
def lowerStr (s : List Char) : List Char := s.map lowerChar

/-- Characters matched by PCRE backslash-s in ASCII mode: space, tab, newline,
carriage return, form feed, vertical tab. -/
def isPregWs (c : Char) : Bool :=
  c = ' ' || c = '\t' || c = '\n' || c = '\r' || c = '\x0c' || c = '\x0b'

/-- Characters stripped by PHP trim by default: space, tab, newline, carriage
return, NUL, vertical tab. -/
def isTrimChar (c : Char) : Bool :=
  c = ' ' || c = '\t' || c = '\n' || c = '\r' || c = '\x00' || c = '\x0b'

/-- PHP trim: strip the default character set from both ends. -/
def phpTrim (s : List Char) : List Char :=
  (s.dropWhile isTrimChar).rdropWhile isTrimChar

/-- The call str_replace of backslash by slash used on upload paths. -/
def normSlash (s : List Char) : List Char :=
  s.map (fun c => if c = '\\' then '/' else c)

/-- PHP explode on slash; always returns at least one piece. -/
def splitSlash : List Char → List (List Char)
  | [] => [[]]
  | c :: rest =>
    if c = '/' then [] :: splitSlash rest
    else
      match splitSlash rest with
      | [] => [[c]]
      | s :: ss => (c :: s) :: ss

/-- PHP truthiness of a string: the empty string and the string holding the
single digit zero are falsy, so array_filter drops them. -/
def phpTruthy (s : List Char) : Bool := !(s == ([] : List Char) || s == ['0'])

/-- Separator class of the tier regex: underscore, hyphen, dot or whitespace. -/
def isSepChar (c : Char) : Bool := c = '_' || c = '-' || c = '.' || isPregWs c

/-- Tests that the list starts with the token followed immediately by a
separator character. -/
def startsTokenSep : List Char → List Char → Bool
  | [], [] => false
  | [], c :: _ => isSepChar c
  | _ :: _, [] => false
  | t :: ts, c :: rest => t == c && startsTokenSep ts rest

/-- The preg_match test for a separator-delimited token occurring anywhere in
the string: some position carries separator, token, separator. -/
def hasSepToken (tok : List Char) : List Char → Bool
  | [] => false
  | c :: rest => (isSepChar c && startsTokenSep tok rest) || hasSepToken tok rest

/-- The foreach loop of parse_upload_path: the first segment whose trimmed,
lowercased value is exactly light or max, as that lowered value. -/
def findTierSegment : List (List Char) → List Char
  | [] => []
  | p :: rest =>
    if lowerStr (phpTrim p) == ("light").data || lowerStr (phpTrim p) == ("max").data then
      lowerStr (phpTrim p)
    else findTierSegment rest

/-- Embedding of parse_upload_path (src/backend/php/helpers.php lines 66–93):
returns the pair of folder type (empty string when unresolved) and clean name. -/
def parse_upload_path (filename : List Char) : List Char × List Char :=
  let pathParts := (splitSlash (normSlash filename)).filter phpTruthy
  let cleanName := (pathParts.getLast?).getD filename
  let tier := findTierSegment pathParts
  (if tier == ([] : List Char) then
     (if hasSepToken (("light").data) (lowerStr cleanName) then ("light").data
      else if hasSepToken (("max").data) (lowerStr cleanName) then ("max").data
      else [])
   else tier,
   cleanName)

/-- Tier resolution exactly as the specification words it (claim C1): split on
slash after normalizing backslashes; a path segment case-insensitively equal to
light or max decides; otherwise the final segment is searched for a
separator-delimited token; otherwise unknown (empty). -/
def classifyTierClaimC1 (filename : List Char) : List Char :=
  let segs := splitSlash (normSlash filename)
  match segs.find? (fun p => lowerStr p == ("light").data || lowerStr p == ("max").data) with
  | some p => lowerStr p
  | none =>
    let lname := lowerStr ((segs.getLast?).getD [])
    if hasSepToken (("light").data) lname then ("light").data
    else if hasSepToken (("max").data) lname then ("max").data
    else []

/-- Amended tier algorithm: segments are compared after trimming whitespace,
empty and zero segments are dropped, the filename inspected by the token rule is
the last remaining segment (the whole input when none remains), and light is
tested before max. -/
def classifyTierAmendedC1 (filename : List Char) : List Char :=
  let segs := (splitSlash (normSlash filename)).filter phpTruthy
  match segs.find? (fun p =>
      lowerStr (phpTrim p) == ("light").data || lowerStr (phpTrim p) == ("max").data) with
  | some p => lowerStr (phpTrim p)
  | none =>
    let lname := lowerStr ((segs.getLast?).getD filename)
    if hasSepToken (("light").data) lname then ("light").data
    else if hasSepToken (("max").data) lname then ("max").data
    else []

/-! Sanitisation of filenames. -/

/-- PHP pathinfo split of a basename into filename and extension: the extension
is the part after the last dot, absent when there is no dot. -/
def pathinfoSplit (name : List Char) : List Char × List Char :=
  match name.reverse.span (fun c => !(c == '.')) with
  | (_, []) => (name, [])
  | (extRev, _ :: baseRev) => (baseRev.reverse, extRev.reverse)

/-- The sanitised character class: angle brackets, colon, double quote,
backslash, slash, pipe, question mark, star. -/
def isForbiddenChar (c : Char) : Bool :=
  c = '<' || c = '>' || c = ':' || c = '\"' || c = '\\' || c = '/' || c = '|' || c = '?' || c = '*'

/-- The preg_replace of every forbidden character by an underscore. -/
def replaceForbidden (s : List Char) : List Char :=
  s.map (fun c => if isForbiddenChar c then '_' else c)

/-- Worker for whitespace collapsing; the flag records whether the previous
character belonged to a whitespace run. -/
def collapseWsGo : Bool → List Char → List Char
  | _, [] => []
  | prevWs, c :: rest =>
    if isPregWs c then
      if prevWs then collapseWsGo true rest else ' ' :: collapseWsGo true rest
    else c :: collapseWsGo false rest

/-- The preg_replace collapsing each whitespace run to a single space. -/
def collapseWs (s : List Char) : List Char := collapseWsGo false s

/-- Embedding of sanitize_filename (src/backend/php/helpers.php lines 39–51). -/
def sanitize_filename (filename : List Char) : List Char :=
  let name := (((splitSlash (normSlash filename)).getLast?).getD [])
  let ext := (pathinfoSplit name).2
  let base := phpTrim (collapseWs (replaceForbidden (pathinfoSplit name).1))
  let base4 := if base == ([] : List Char) then ("photo").data else base
  if ext == ([] : List Char) then base4 else base4 ++ '.' :: ext

/-- The clean filename the upload pipeline produces for a path: the clean name
from parse_upload_path passed through sanitize_filename. -/
def cleanFilename (filename : List Char) : List Char :=
  sanitize_filename (parse_upload_path filename).2

/-- Sanitisation exactly as the specification words it (claim C6): the whole
final path segment has forbidden characters replaced, whitespace runs collapsed,
ends trimmed, with a placeholder for an empty result. -/
def cleanFilenameClaimC6 (filename : List Char) : List Char :=
  let seg := (((splitSlash (normSlash filename)).getLast?).getD [])
  let s3 := phpTrim (collapseWs (replaceForbidden seg))
  if s3 == ([] : List Char) then ("photo").data else s3

/-- Final path segment used by sanitize_filename. -/
def finalSegment (filename : List Char) : List Char :=
  (((splitSlash (normSlash filename)).getLast?).getD [])

/-- Extension suffix that sanitize_filename reattaches unchanged. -/
def extSuffix (filename : List Char) : List Char :=
  let ext := (pathinfoSplit (finalSegment filename)).2
  if ext == ([] : List Char) then [] else '.' :: ext

/-- No two adjacent characters are both whitespace. -/
def noTwoWs (s : List Char) : Prop :=
  List.Chain' (fun a b => ¬(isPregWs a = true ∧ isPregWs b = true)) s

/-! Collision-free storage names (get_unique_filename). -/

/-- PHP integer-to-string conversion (decimal, no sign for naturals). -/
def natToDec (n : Nat) : List Char :=
  if n = 0 then ['0'] else ((Nat.digits 10 n).map Nat.digitChar).reverse

/-- Candidate name built by the collision loop: base, space, parenthesised
counter, then the dot and extension when one exists. -/
def suffixedName (base ext : List Char) (n : Nat) : List Char :=
  if ext == ([] : List Char) then base ++ (" (").data ++ natToDec n ++ [')']
  else base ++ (" (").data ++ natToDec n ++ [')'] ++ '.' :: ext

/-- The while loop of get_unique_filename over the list of names already in the
directory; fuel bounds the iteration count of the shallow embedding. -/
def gufLoop (dir : List (List Char)) (base ext : List Char) :
    List Char → Nat → Nat → Option (List Char)
  | _, _, 0 => none
  | cand, counter, fuel+1 =>
    if cand ∈ dir then gufLoop dir base ext (suffixedName base ext counter) (counter + 1) fuel
    else some cand

/-- Embedding of get_unique_filename (src/backend/php/helpers.php lines 53–64). -/
def get_unique_filename (dir : List (List Char)) (filename : List Char) (fuel : Nat) :
    Option (List Char) :=
  gufLoop dir (pathinfoSplit filename).1 (pathinfoSplit filename).2 filename 1 fuel

/-- Candidate tested at the k-th iteration of the loop when it starts from the
given candidate and counter. -/
def gufTested (base ext cand : List Char) (counter : Nat) : Nat → List Char
  | 0 => cand
  | k + 1 => suffixedName base ext (counter + k)

/-! Storage trees and zip archives. -/

/-- A stored directory subtree: files and directories with ordered children. -/
inductive FsTree where
  | file (name : String)
  | dir (name : String) (children : List FsTree)

/-- An entry of the zip archive: a file member or an empty-directory member. -/
inductive ZipEntry where
  | fileEntry (path : String)
  | dirEntry (path : String)
  deriving DecidableEq

/-- Path of a zip entry. -/
def entryPath : ZipEntry → String
  | .fileEntry p => p
  | .dirEntry p => p

/-- Whether a zip entry is a file member. -/
def isFileEntry : ZipEntry → Bool
  | .fileEntry _ => true
  | .dirEntry _ => false

/-- Entries contributed by the recursive iterator over the children of a folder
(pre-order, SELF_FIRST): an empty-dir entry per directory and a file entry per
file, each under the accumulated sub-path. -/
def subEntriesList (pre : String) : List FsTree → List ZipEntry
  | [] => []
  | .file n :: ts => .fileEntry (pre ++ "/" ++ n) :: subEntriesList pre ts
  | .dir n cs :: ts =>
    .dirEntry (pre ++ "/" ++ n) ::
      (subEntriesList (pre ++ "/" ++ n) cs ++ subEntriesList pre ts)

/-- Embedding of add_folder_to_zip (src/backend/php/helpers.php lines 175–194):
a missing or non-directory folder contributes nothing, otherwise the folder
contents are added recursively under the zip path. -/
def add_folder_to_zip (folder : Option FsTree) (zipPath : String) : List ZipEntry :=
  match folder with
  | none => []
  | some (.file _) => []
  | some (.dir _ cs) => subEntriesList zipPath cs

/-! Streaming of the archive (stream_zip). -/

/-- An observable output action of stream_zip. -/
inductive StreamEvent where
  | header (line : String)
  | chunk (size : Nat)
  deriving DecidableEq

/-- The failures stream_zip can raise (RuntimeException messages). -/
inductive StreamError where
  | cannotCreateTemp
  | cannotOpenZip
  | finalizeFailed
  | emptyArchive
  | cannotRead
  deriving DecidableEq

/-- Modelled byte size of the archive left by ZipArchive::close: libzip writes
no file at all when no entry was added, so the later filesize check sees an
absent or empty file, modelled as size zero; otherwise the archive holds the
end-of-central-directory record plus a positive cost per entry (the exact
per-entry byte count is abstracted to one). -/
def archiveSize (entries : List ZipEntry) : Nat :=
  if entries.isEmpty then 0 else 22 + entries.length

/-- Worker for the 64 KiB chunking, structurally recursive on a fuel bound. -/
def chunkSizesGo : Nat → Nat → List Nat
  | 0, _ => []
  | fuel + 1, size =>
    if size = 0 then []
    else if size ≤ 65536 then [size]
    else 65536 :: chunkSizesGo fuel (size - 65536)

/-- Sizes of the 64 KiB chunks of the fread loop. -/
def chunkSizes (size : Nat) : List Nat := chunkSizesGo size size

/-- The response headers stream_zip sends (lines 258–265). -/
def streamHeaders (fn : String) (size : Nat) : List StreamEvent :=
  [ .header ("Content-Type: application/octet-stream"),
    .header ("Content-Transfer-Encoding: binary"),
    .header ("Content-Disposition: attachment; filename=" ++ fn),
    .header ("Content-Length: " ++ toString size),
    .header ("Cache-Control: no-cache, no-store, must-revalidate"),
    .header ("Pragma: no-cache"),
    .header ("Expires: 0"),
    .header ("X-Accel-Buffering: no") ]

/-- Embedding of stream_zip (src/backend/php/helpers.php lines 211–289): the
builder's entries are written to a temporary archive; when the finalized
archive is empty or unreadable the function throws before sending anything,
otherwise it emits the headers and then the archive in 64 KiB chunks. The
result pairs the emitted events with the error, if any. -/
def stream_zip (entries : List ZipEntry) (zipFilename : String) :
    List StreamEvent × Option StreamError :=
  let size := archiveSize entries
  if size = 0 then ([], some StreamError.emptyArchive)
  else (streamHeaders zipFilename size ++ (chunkSizes size).map StreamEvent.chunk, none)

/-! The album registry write (write_albums_data). -/

/-- A filesystem operation performed by the registry code. -/
inductive FsOp where
  | putContents (path contents : String)
  | rename (src dst : String)
  deriving DecidableEq

/-- Embedding of write_albums_data (src/backend/php/helpers.php lines 28–30):
one direct file_put_contents of the encoded registry to the data file. -/
def write_albums_data (dataFile encoded : String) : List FsOp :=
  [.putContents dataFile encoded]

/-- The atomic-replace pattern the specification describes for registry writes:
the new contents go to a distinct temporary path and a rename moves them over
the target. -/
def atomicReplacePattern (trace : List FsOp) (target : String) : Prop :=
  ∃ tmp contents, tmp ≠ target ∧
    trace = [FsOp.putContents tmp contents, FsOp.rename tmp target]

/-- Pointwise update of a contents map. -/
def updateFile (st : String → String) (p c : String) : String → String :=
  fun q => if q = p then c else st q

/-- Effect of one completed filesystem operation on the contents map. -/
def runOp (st : String → String) : FsOp → (String → String)
  | .putContents p c => updateFile st p c
  | .rename s d => fun q => if q = d then st s else if q = s then "" else st q

/-- Effect of a completed operation sequence. -/
def runTrace (st : String → String) : List FsOp → (String → String)
  | [] => st
  | op :: rest => runTrace (runOp st op) rest

/-- States reachable when the operation sequence is interrupted: execution can
stop between operations, and an interrupted putContents truncates the target
and leaves an arbitrary prefix of the new contents; a rename is atomic. -/
inductive Interrupted : (String → String) → List FsOp → (String → String) → Prop
  | stop (st : String → String) (ops : List FsOp) : Interrupted st ops st
  | truncPut (st : String → String) (p c : String) (rest : List FsOp) (k : Nat) :
      Interrupted st (FsOp.putContents p c :: rest) (updateFile st p (String.mk (c.data.take k)))
  | step (st : String → String) (op : FsOp) (rest : List FsOp) (st' : String → String) :
      Interrupted (runOp st op) rest st' → Interrupted st (op :: rest) st'

/-! Thumbnail geometry (create_thumbnail). -/

/-- Geometry and encoding parameters of the generated thumbnail. -/
structure ThumbGeometry where
  canvasW : Int
  canvasH : Int
  bgR : Nat
  bgG : Nat
  bgB : Nat
  newWidth : Int
  newHeight : Int
  dstX : Int
  dstY : Int
  jpegQuality : Nat
  deriving DecidableEq

/-- Embedding of the geometry part of create_thumbnail
(src/backend/php/helpers.php lines 146–161) for a decoded source of the given
width and height; PHP float arithmetic is modelled over the rationals. -/
def thumbGeometry (width height targetSize : Nat) : ThumbGeometry :=
  let ratio : ℚ := min ((targetSize : ℚ) / (width : ℚ)) ((targetSize : ℚ) / (height : ℚ))
  let newW : Int := max 1 ⌊(width : ℚ) * ratio⌋
  let newH : Int := max 1 ⌊(height : ℚ) * ratio⌋
  { canvasW := targetSize
    canvasH := targetSize
    bgR := 0
    bgG := 0
    bgB := 0
    newWidth := newW
    newHeight := newH
    dstX := ⌊(((targetSize : ℚ)) - (newW : ℚ)) / 2⌋
    dstY := ⌊(((targetSize : ℚ)) - (newH : ℚ)) / 2⌋
    jpegQuality := 80 }

/-- The failures of create_thumbnail as the code actually raises them. The
gdTypeError case models the uncaught TypeError PHP 8 raises when the unchecked
false returned by a failed imagecreatefrom call reaches imagesx. -/
inductive ThumbFailure where
  | unsupportedExtension
  | webpUnavailable
  | gdTypeError
  deriving DecidableEq

/-- A written thumbnail: its path and geometry. -/
structure ThumbFile where
  path : String
  geometry : ThumbGeometry
  deriving DecidableEq

/-- Outcome of decoding and writing once the extension dispatch accepted the
file; a failed decode (false from GD) is used unchecked by the source. -/
def thumbFromDecode (decoded : Option (Nat × Nat)) (thumbDir thumbBase : String)
    (targetSize : Nat) : Except ThumbFailure ThumbFile :=
  match decoded with
  | none => .error ThumbFailure.gdTypeError
  | some (w, h) =>
    .ok { path := thumbDir ++ "/" ++ thumbBase ++ ".jpg"
          geometry := thumbGeometry w h targetSize }

/-- Embedding of create_thumbnail (src/backend/php/helpers.php lines 124–165):
dispatch on the lowercased extension, decode (the decoded argument models the
GD result, none standing for false), then geometry and thumbnail write; the
webpAvailable flag models function_exists for the webp decoder. On error no
thumbnail file is produced. -/
def create_thumbnail (ext : List Char) (decoded : Option (Nat × Nat))
    (webpAvailable : Bool) (thumbDir thumbBase : String) (targetSize : Nat) :
    Except ThumbFailure ThumbFile :=
  let e := lowerStr ext
  if e == ("jpg").data || e == ("jpeg").data then
    thumbFromDecode decoded thumbDir thumbBase targetSize
  else if e == ("png").data then
    thumbFromDecode decoded thumbDir thumbBase targetSize
  else if e == ("webp").data then
    if webpAvailable then thumbFromDecode decoded thumbDir thumbBase targetSize
    else .error ThumbFailure.webpUnavailable
  else if e == ("gif").data then
    thumbFromDecode decoded thumbDir thumbBase targetSize
  else .error ThumbFailure.unsupportedExtension

/-- The extensions the dispatch accepts. -/
def allowedThumbExts : List (List Char) :=
  [("jpg").data, ("jpeg").data, ("png").data, ("webp").data, ("gif").data]

/-! Upload validation (validate_uploaded_file). -/

/-- The fields of one uploaded file the validator inspects; detectedMime is the
content type reported by finfo on the temporary file. -/
structure UploadedFile where
  errorCode : Nat
  size : Nat
  detectedMime : String

/-- The structured rejections of validate_uploaded_file (RuntimeExceptions). -/
inductive UploadRejection where
  | transportError (code : Nat)
  | fileTooLarge
  | unsupportedMime (mime : String)
  deriving DecidableEq

/-- Embedding of validate_uploaded_file (src/backend/php/helpers.php lines
291–306); UPLOAD_ERR_OK is zero, maxFileSize and allowedMimeTypes stand for the
MAX_FILE_SIZE and ALLOWED_MIME_TYPES configuration constants. The function only
validates: it performs no storage operation. -/
def validate_uploaded_file (maxFileSize : Nat) (allowedMimeTypes : List String)
    (f : UploadedFile) : Except UploadRejection Unit :=
  if f.errorCode ≠ 0 then .error (.transportError f.errorCode)
  else if maxFileSize < f.size then .error .fileTooLarge
  else if f.detectedMime ∉ allowedMimeTypes then .error (.unsupportedMime f.detectedMime)
  else .ok ()

/-! UUID generation (generate_uuid). -/

/-- The byte rewrites of generate_uuid: the version nibble of byte six and the
variant bits of byte eight. -/
def setUuidBits (bytes : List Nat) : List Nat :=
  (bytes.set 6 (((bytes.getD 6 0).land 15).lor 64)).set 8 (((bytes.getD 8 0).land 63).lor 128)

/-- PHP bin2hex: two lowercase hex digits per byte. -/
def bytesToHex (bytes : List Nat) : List Char :=
  bytes.flatMap (fun b => [Nat.digitChar (b / 16), Nat.digitChar (b % 16)])

/-- The vsprintf format of generate_uuid: dashes after the eighth, twelfth,
sixteenth and twentieth hex digit. -/
def addDashes (l : List Char) : List Char :=
  l.take 8 ++ '-' :: ((l.drop 8).take 4) ++ '-' :: ((l.drop 12).take 4) ++
    '-' :: ((l.drop 16).take 4) ++ '-' :: l.drop 20

/-- Embedding of generate_uuid (src/backend/php/helpers.php lines 32–37) on the
sixteen random bytes. -/
def generate_uuid (bytes : List Nat) : List Char :=
  addDashes (bytesToHex (setUuidBits bytes))

/-- Lowercase hexadecimal digits. -/
def isLowerHexDigit (c : Char) : Bool :=
  ('0' ≤ c && c ≤ '9') || ('a' ≤ c && c ≤ 'f')

/-! Theorems about the path classifier. -/

/-- The foreach loop of the tier search agrees with the find-first-matching
formulation. -/
theorem findTierSegment_eq_find (l : List (List Char)) :
    findTierSegment l =
      match l.find? (fun p =>
          lowerStr (phpTrim p) == ("light").data || lowerStr (phpTrim p) == ("max").data) with
      | some p => lowerStr (phpTrim p)
      | none => [] := by
  induction l with
  | nil => rfl
  | cons p rest ih =>
    cases h : (lowerStr (phpTrim p) == ("light").data || lowerStr (phpTrim p) == ("max").data) with
    | true => simp [findTierSegment, List.find?_cons, h]
    | false =>
      simp only [findTierSegment, List.find?_cons, h, Bool.false_eq_true, if_false]
      exact ih

/-- Claim C1 (corrected): the tier algorithm exactly as the specification words
it disagrees with parse_upload_path on a concrete path whose tier segment
carries surrounding whitespace: the code trims the segment and resolves light,
the claimed algorithm resolves unknown. -/
theorem C1_claim_counterexample :
    classifyTierClaimC1 ((" light /a.jpg").data) ≠
      (parse_upload_path ((" light /a.jpg").data)).1 := by
  decide

/-- Claim C1 (amended): for every uploaded path, parse_upload_path resolves the
tier by the priority algorithm with segments trimmed of surrounding whitespace
before the case-insensitive comparison, empty and zero segments dropped, the
token rule applied to the last remaining segment (the whole input when none
remains), and light tested before max. -/
theorem C1_tier_priority_algorithm (filename : List Char) :
    (parse_upload_path filename).1 = classifyTierAmendedC1 filename := by
  simp only [parse_upload_path, classifyTierAmendedC1, findTierSegment_eq_find]
  cases hf : ((splitSlash (normSlash filename)).filter phpTruthy).find? (fun p =>
      lowerStr (phpTrim p) == ("light").data || lowerStr (phpTrim p) == ("max").data) with
  | none => rfl
  | some p =>
    have hp := List.find?_some hf
    have hne : (lowerStr (phpTrim p) == ([] : List Char)) = false := by
      rcases Bool.or_eq_true_iff.mp hp with h | h
      · rw [beq_iff_eq] at h
        simp [h]
      · rw [beq_iff_eq] at h
        simp [h]
    simp [hne]

/-! Theorems about filename sanitisation. -/

/-- Characters surviving the forbidden-character replacement are never
forbidden. -/
theorem mem_replaceForbidden (s : List Char) :
    ∀ c ∈ replaceForbidden s, isForbiddenChar c = false := by
  intro c hc
  rcases List.mem_map.mp hc with ⟨a, _, rfl⟩
  by_cases ha : isForbiddenChar a = true
  · simp [ha]
    decide
  · simp only [Bool.not_eq_true] at ha
    simp [ha]

/-- Characters of the collapsed string are the space or non-whitespace
characters of the input. -/
theorem mem_collapseWsGo :
    ∀ (b : Bool) (s : List Char), ∀ c ∈ collapseWsGo b s,
      c = ' ' ∨ (c ∈ s ∧ isPregWs c = false) := by
  intro b s
  induction s generalizing b with
  | nil => simp [collapseWsGo]
  | cons a rest ih =>
    intro c hc
    by_cases hw : isPregWs a = true
    · cases b with
      | true =>
        simp only [collapseWsGo, hw, if_true] at hc
        rcases ih true c hc with h | ⟨h1, h2⟩
        · exact Or.inl h
        · exact Or.inr ⟨List.mem_cons_of_mem a h1, h2⟩
      | false =>
        simp only [collapseWsGo, hw, if_true] at hc
        rcases List.mem_cons.mp hc with h | h
        · exact Or.inl h
        · rcases ih true c h with h | ⟨h1, h2⟩
          · exact Or.inl h
          · exact Or.inr ⟨List.mem_cons_of_mem a h1, h2⟩
    · simp only [Bool.not_eq_true] at hw
      simp only [collapseWsGo, hw, Bool.false_eq_true, if_false] at hc
      rcases List.mem_cons.mp hc with h | h
      · exact Or.inr ⟨h ▸ List.mem_cons_self a rest, h ▸ hw⟩
      · rcases ih false c h with h | ⟨h1, h2⟩
        · exact Or.inl h
        · exact Or.inr ⟨List.mem_cons_of_mem a h1, h2⟩

/-- After a whitespace run was just collapsed, the next emitted character is not
whitespace. -/
theorem head_collapseWsGo_true :
    ∀ (s : List Char) (c : Char), (collapseWsGo true s).head? = some c →
      isPregWs c = false := by
  intro s
  induction s with
  | nil => intro c hc; simp [collapseWsGo] at hc
  | cons a rest ih =>
    intro c hc
    by_cases hw : isPregWs a = true
    · simp only [collapseWsGo, hw, if_true] at hc
      exact ih c hc
    · simp only [Bool.not_eq_true] at hw
      simp only [collapseWsGo, hw, Bool.false_eq_true, if_false, List.head?_cons,
        Option.some.injEq] at hc
      exact hc ▸ hw

/-- The collapsed string has no two adjacent whitespace characters. -/
theorem noTwoWs_collapseWsGo : ∀ (b : Bool) (s : List Char), noTwoWs (collapseWsGo b s) := by
  intro b s
  induction s generalizing b with
  | nil => simp [collapseWsGo, noTwoWs]
  | cons a rest ih =>
    by_cases hw : isPregWs a = true
    · cases b with
      | true =>
        simp only [collapseWsGo, hw, if_true]
        exact ih true
      | false =>
        simp only [collapseWsGo, hw, if_true]
        refine List.chain'_cons'.mpr ⟨?_, ih true⟩
        intro y hy hcon
        have := head_collapseWsGo_true rest y hy
        rw [this] at hcon
        exact absurd hcon.2 (by simp)
    · simp only [Bool.not_eq_true] at hw
      simp only [collapseWsGo, hw, Bool.false_eq_true, if_false]
      refine List.chain'_cons'.mpr ⟨?_, ih false⟩
      intro y _ hcon
      rw [hw] at hcon
      exact absurd hcon.1 (by simp)

/-- A string without whitespace has no two adjacent whitespace characters. -/
theorem noTwoWs_of_noWs (s : List Char) (h : ∀ c ∈ s, isPregWs c = false) : noTwoWs s := by
  unfold noTwoWs
  induction s with
  | nil => simp
  | cons a rest ih =>
    refine List.chain'_cons'.mpr ⟨?_, ih (fun c hc => h c (List.mem_cons_of_mem a hc))⟩
    intro y _ hcon
    rw [h a (List.mem_cons_self a rest)] at hcon
    exact absurd hcon.1 (by simp)

/-- The head of dropWhile does not satisfy the predicate. -/
theorem head_dropWhile_false (p : Char → Bool) :
    ∀ (s : List Char) (c : Char), (s.dropWhile p).head? = some c → p c = false := by
  intro s
  induction s with
  | nil => intro c hc; simp at hc
  | cons a rest ih =>
    intro c hc
    by_cases hp : p a = true
    · simp only [List.dropWhile_cons, hp, if_true] at hc
      exact ih c hc
    · simp only [Bool.not_eq_true] at hp
      simp only [List.dropWhile_cons, hp, Bool.false_eq_true, if_false, List.head?_cons,
        Option.some.injEq] at hc
      exact hc ▸ hp

/-- The last element of rdropWhile does not satisfy the predicate. -/
theorem getLast_rdropWhile_false (p : Char → Bool) (s : List Char) (c : Char)
    (hc : (s.rdropWhile p).getLast? = some c) : p c = false := by
  rw [List.rdropWhile, List.getLast?_reverse] at hc
  exact head_dropWhile_false p s.reverse c hc

/-- A nonempty prefix has the same head. -/
theorem head?_of_isPrefix {l₁ l₂ : List Char} (h : l₁ <+: l₂) {c : Char}
    (hc : l₁.head? = some c) : l₂.head? = some c := by
  rcases h with ⟨t, rfl⟩
  cases l₁ with
  | nil => simp at hc
  | cons a rest => simpa using hc

/-- Trimming only removes characters. -/
theorem phpTrim_sublist (s : List Char) : (phpTrim s).Sublist s :=
  (( List.rdropWhile_prefix isTrimChar (s.dropWhile isTrimChar)).sublist).trans
    ((List.dropWhile_suffix isTrimChar).sublist)

/-- Claim C6 (corrected): the sanitisation exactly as the specification words
it disagrees with the code on a concrete name whose extension carries a
forbidden character: the code sanitises only the base and returns the extension
unchanged. -/
theorem C6_claim_counterexample :
    cleanFilenameClaimC6 (("a.b?c").data) ≠ cleanFilename (("a.b?c").data) := by
  decide

/-- Claim C6 (amended): the clean filename is the sanitised base of the final
path segment with the last-dot extension reattached unchanged: the base has
every forbidden character replaced, whitespace runs collapsed to single spaces,
no leading or trailing trim character, and is never empty (a placeholder is
substituted). -/
theorem C6_sanitized_base (filename : List Char) :
    ∃ B : List Char,
      sanitize_filename filename = B ++ extSuffix filename ∧
      B ≠ [] ∧
      (∀ c ∈ B, isForbiddenChar c = false) ∧
      (∀ c ∈ B, isPregWs c = true → c = ' ') ∧
      noTwoWs B ∧
      (∀ c, B.head? = some c → isTrimChar c = false) ∧
      (∀ c, B.getLast? = some c → isTrimChar c = false) := by
  simp only [sanitize_filename, extSuffix, finalSegment]
  set name := (((splitSlash (normSlash filename)).getLast?).getD []) with hname
  set base := phpTrim (collapseWs (replaceForbidden (pathinfoSplit name).1)) with hbase
  by_cases hb : (base == ([] : List Char)) = true
  · refine ⟨("photo").data, ?_, by decide, by decide, by decide,
      noTwoWs_of_noWs _ (by decide), by decide, by decide⟩
    simp only [hb, if_true]
    by_cases he : ((pathinfoSplit name).2 == ([] : List Char)) = true
    · simp [he]
    · simp only [Bool.not_eq_true] at he
      simp [he]
  · have hbne : base ≠ [] := by
      intro hcon
      rw [hcon] at hb
      exact hb (by simp)
    have hmem : ∀ c ∈ base, c = ' ' ∨
        (c ∈ replaceForbidden (pathinfoSplit name).1 ∧ isPregWs c = false) := by
      intro c hc
      exact mem_collapseWsGo false (replaceForbidden (pathinfoSplit name).1) c
        ((phpTrim_sublist _).mem hc)
    refine ⟨base, ?_, hbne, ?_, ?_, ?_, ?_, ?_⟩
    · rw [Bool.not_eq_true] at hb
      simp only [hb, Bool.false_eq_true, if_false]
      by_cases he : ((pathinfoSplit name).2 == ([] : List Char)) = true
      · simp [he]
      · simp only [Bool.not_eq_true] at he
        simp [he]
    · intro c hc
      rcases hmem c hc with rfl | ⟨h1, _⟩
      · decide
      · exact mem_replaceForbidden _ c h1
    · intro c hc hw
      rcases hmem c hc with rfl | ⟨_, h2⟩
      · rfl
      · rw [hw] at h2
        exact absurd h2 (by simp)
    · have hcol : noTwoWs (collapseWs (replaceForbidden (pathinfoSplit name).1)) :=
        noTwoWs_collapseWsGo false _
      have h1 : noTwoWs ((collapseWs (replaceForbidden (pathinfoSplit name).1)).dropWhile
          isTrimChar) :=
        List.Chain'.suffix hcol (List.dropWhile_suffix isTrimChar)
      exact List.Chain'.prefix h1 ( List.rdropWhile_prefix isTrimChar _)
    · intro c hc
      have hpre := List.rdropWhile_prefix isTrimChar
        ((collapseWs (replaceForbidden (pathinfoSplit name).1)).dropWhile isTrimChar)
      have : ((collapseWs (replaceForbidden (pathinfoSplit name).1)).dropWhile
          isTrimChar).head? = some c :=
        head?_of_isPrefix hpre hc
      exact head_dropWhile_false isTrimChar _ c this
    · intro c hc
      exact getLast_rdropWhile_false isTrimChar _ c hc

/-! Theorems about the registry write. -/

/-- Claim C2 (corrected): at a concrete call, the album registry write is not
the write-to-temporary-then-rename pattern the specification describes. -/
theorem C2_claim_counterexample :
    ¬ atomicReplacePattern (write_albums_data ("data/albums.json") ("registry-v2"))
        ("data/albums.json") := by
  rintro ⟨tmp, contents, _, heq⟩
  simp [write_albums_data] at heq

/-- Claim C2 (amended): every registry write is a single direct put of the new
contents to the data file, not an atomic replace; a completed run leaves the
new contents, while an interrupted run can leave the data file holding an
arbitrary prefix of the new contents in place of the previous valid state. -/
theorem C2_direct_write (dataFile encoded : String) (st : String → String) (k : Nat) :
    write_albums_data dataFile encoded = [FsOp.putContents dataFile encoded] ∧
    runTrace st (write_albums_data dataFile encoded) dataFile = encoded ∧
    Interrupted st (write_albums_data dataFile encoded)
      (updateFile st dataFile (String.mk (encoded.data.take k))) ∧
    ¬ atomicReplacePattern (write_albums_data dataFile encoded) dataFile := by
  refine ⟨rfl, ?_, ?_, ?_⟩
  · simp [write_albums_data, runTrace, runOp, updateFile]
  · exact Interrupted.truncPut st dataFile encoded [] k
  · rintro ⟨tmp, contents, _, heq⟩
    simp [write_albums_data] at heq

/-! Theorems about upload validation. -/

/-- Claim C8 (confirmed): a file passes validation exactly when its transport
error code is zero, its size is at most the ceiling, and its detected content
type is in the allow-list; otherwise the matching structured rejection is
raised, in that order of checks, and no storage is performed. -/
theorem C8_upload_validation (maxFileSize : Nat) (allowed : List String) (f : UploadedFile) :
    (validate_uploaded_file maxFileSize allowed f = .ok () ↔
      (f.errorCode = 0 ∧ f.size ≤ maxFileSize ∧ f.detectedMime ∈ allowed)) ∧
    (f.errorCode ≠ 0 →
      validate_uploaded_file maxFileSize allowed f =
        .error (.transportError f.errorCode)) ∧
    (f.errorCode = 0 → maxFileSize < f.size →
      validate_uploaded_file maxFileSize allowed f = .error .fileTooLarge) ∧
    (f.errorCode = 0 → f.size ≤ maxFileSize → f.detectedMime ∉ allowed →
      validate_uploaded_file maxFileSize allowed f =
        .error (.unsupportedMime f.detectedMime)) := by
  unfold validate_uploaded_file
  split_ifs with h1 h2 h3 <;>
    refine ⟨⟨fun hok => ?_, fun hrhs => ?_⟩, fun ha => ?_, fun ha hb => ?_,
      fun ha hb hc => ?_⟩ <;>
    first
      | rfl
      | (exact Except.noConfusion hok)
      | omega
      | tauto
      | (exact ⟨by omega, by omega, by tauto⟩)

/-- Witness for claim C8: a small in-bounds file of an allowed type passes. -/
theorem C8_upload_validation_witness :
    validate_uploaded_file 1000 [("image/jpeg")]
      { errorCode := 0, size := 10, detectedMime := ("image/jpeg") } = .ok () :=
  (C8_upload_validation 1000 [("image/jpeg")]
    { errorCode := 0, size := 10, detectedMime := ("image/jpeg") }).1.mpr
    ⟨rfl, by decide, by simp⟩

/-! Theorems about thumbnail geometry. -/

/-- Bounds for a scaled dimension: clamping the floored scaled size to at least
one pixel keeps it within the canvas and within one pixel of the exact scaled
size. -/
theorem maxFloor_bounds (x : ℚ) (tz : Int) (hx0 : 0 < x) (hxt : x ≤ (tz : ℚ))
    (htz : 1 ≤ tz) :
    1 ≤ max 1 ⌊x⌋ ∧ max 1 ⌊x⌋ ≤ tz ∧ |((max 1 ⌊x⌋ : Int) : ℚ) - x| < 1 := by
  refine ⟨le_max_left _ _, ?_, ?_⟩
  · refine max_le htz ?_
    calc ⌊x⌋ ≤ ⌊(tz : ℚ)⌋ := Int.floor_le_floor hxt
    _ = tz := Int.floor_intCast tz
  · rcases le_or_lt 1 ⌊x⌋ with hf | hf
    · rw [max_eq_right hf, abs_lt]
      have h1 := Int.sub_one_lt_floor x
      have h2 := Int.floor_le x
      constructor <;> linarith
    · have hf0 : 0 ≤ ⌊x⌋ := Int.floor_nonneg.mpr hx0.le
      have hfz : ⌊x⌋ = 0 := by omega
      have hx1 : x < 1 := by
        have := Int.lt_floor_add_one x
        rw [hfz] at this
        push_cast at this
        linarith
      rw [hfz, abs_lt]
      norm_num
      constructor <;> linarith

/-- The floored half gap splits the free space into two margins differing by at
most one pixel. -/
theorem centerFloor_bounds (tz nw : Int) (_hnw : 1 ≤ nw) (h2 : nw ≤ tz) :
    0 ≤ ⌊((tz : ℚ) - (nw : ℚ)) / 2⌋ ∧
    ⌊((tz : ℚ) - (nw : ℚ)) / 2⌋ ≤ tz - nw - ⌊((tz : ℚ) - (nw : ℚ)) / 2⌋ ∧
    tz - nw - ⌊((tz : ℚ) - (nw : ℚ)) / 2⌋ ≤ ⌊((tz : ℚ) - (nw : ℚ)) / 2⌋ + 1 := by
  have hfl := Rat.floor_intCast_div_natCast (tz - nw) 2
  norm_num at hfl
  rw [hfl]
  omega

/-- Claim C5 (confirmed): for a decoded source of positive width and height and
positive target size, the thumbnail canvas is exactly target by target, the
background is opaque black, the JPEG quality is 80, and the composited region
is scaled by the uniform factor min of target over width and target over
height to within one pixel, clamped to at least one pixel, fits the canvas and
is centered with margins differing by at most one pixel. -/
theorem C5_thumbnail_geometry (w h t : Nat) (hw : 1 ≤ w) (hh : 1 ≤ h) (ht : 1 ≤ t) :
    (thumbGeometry w h t).canvasW = (t : Int) ∧
    (thumbGeometry w h t).canvasH = (t : Int) ∧
    (thumbGeometry w h t).bgR = 0 ∧
    (thumbGeometry w h t).bgG = 0 ∧
    (thumbGeometry w h t).bgB = 0 ∧
    (thumbGeometry w h t).jpegQuality = 80 ∧
    |(((thumbGeometry w h t).newWidth : Int) : ℚ) -
        (w : ℚ) * min ((t : ℚ) / (w : ℚ)) ((t : ℚ) / (h : ℚ))| < 1 ∧
    |(((thumbGeometry w h t).newHeight : Int) : ℚ) -
        (h : ℚ) * min ((t : ℚ) / (w : ℚ)) ((t : ℚ) / (h : ℚ))| < 1 ∧
    1 ≤ (thumbGeometry w h t).newWidth ∧
    (thumbGeometry w h t).newWidth ≤ (t : Int) ∧
    1 ≤ (thumbGeometry w h t).newHeight ∧
    (thumbGeometry w h t).newHeight ≤ (t : Int) ∧
    0 ≤ (thumbGeometry w h t).dstX ∧
    (thumbGeometry w h t).dstX ≤
      (t : Int) - (thumbGeometry w h t).newWidth - (thumbGeometry w h t).dstX ∧
    (t : Int) - (thumbGeometry w h t).newWidth - (thumbGeometry w h t).dstX ≤
      (thumbGeometry w h t).dstX + 1 ∧
    0 ≤ (thumbGeometry w h t).dstY ∧
    (thumbGeometry w h t).dstY ≤
      (t : Int) - (thumbGeometry w h t).newHeight - (thumbGeometry w h t).dstY ∧
    (t : Int) - (thumbGeometry w h t).newHeight - (thumbGeometry w h t).dstY ≤
      (thumbGeometry w h t).dstY + 1 := by
  have hw0 : (0 : ℚ) < (w : ℚ) := by exact_mod_cast hw
  have hh0 : (0 : ℚ) < (h : ℚ) := by exact_mod_cast hh
  have ht0 : (0 : ℚ) < (t : ℚ) := by exact_mod_cast ht
  have hr0 : 0 < min ((t : ℚ) / (w : ℚ)) ((t : ℚ) / (h : ℚ)) :=
    lt_min (div_pos ht0 hw0) (div_pos ht0 hh0)
  have hxw : (w : ℚ) * min ((t : ℚ) / (w : ℚ)) ((t : ℚ) / (h : ℚ)) ≤ ((t : Int) : ℚ) := by
    have hle : (w : ℚ) * min ((t : ℚ) / (w : ℚ)) ((t : ℚ) / (h : ℚ)) ≤
        (w : ℚ) * ((t : ℚ) / (w : ℚ)) :=
      mul_le_mul_of_nonneg_left (min_le_left _ _) hw0.le
    have heq : (w : ℚ) * ((t : ℚ) / (w : ℚ)) = (t : ℚ) := by
      field_simp
    push_cast
    rw [heq] at hle
    exact hle
  have hxh : (h : ℚ) * min ((t : ℚ) / (w : ℚ)) ((t : ℚ) / (h : ℚ)) ≤ ((t : Int) : ℚ) := by
    have hle : (h : ℚ) * min ((t : ℚ) / (w : ℚ)) ((t : ℚ) / (h : ℚ)) ≤
        (h : ℚ) * ((t : ℚ) / (h : ℚ)) :=
      mul_le_mul_of_nonneg_left (min_le_right _ _) hh0.le
    have heq : (h : ℚ) * ((t : ℚ) / (h : ℚ)) = (t : ℚ) := by
      field_simp
    push_cast
    rw [heq] at hle
    exact hle
  have htz : (1 : Int) ≤ (t : Int) := by exact_mod_cast ht
  have hWb := maxFloor_bounds ((w : ℚ) * min ((t : ℚ) / (w : ℚ)) ((t : ℚ) / (h : ℚ)))
    (t : Int) (mul_pos hw0 hr0) hxw htz
  have hHb := maxFloor_bounds ((h : ℚ) * min ((t : ℚ) / (w : ℚ)) ((t : ℚ) / (h : ℚ)))
    (t : Int) (mul_pos hh0 hr0) hxh htz
  have hCX := centerFloor_bounds (t : Int)
    (max 1 ⌊(w : ℚ) * min ((t : ℚ) / (w : ℚ)) ((t : ℚ) / (h : ℚ))⌋) hWb.1 hWb.2.1
  have hCY := centerFloor_bounds (t : Int)
    (max 1 ⌊(h : ℚ) * min ((t : ℚ) / (w : ℚ)) ((t : ℚ) / (h : ℚ))⌋) hHb.1 hHb.2.1
  exact ⟨rfl, rfl, rfl, rfl, rfl, rfl, hWb.2.2, hHb.2.2, hWb.1, hWb.2.1, hHb.1, hHb.2.1,
    hCX.1, hCX.2.1, hCX.2.2, hCY.1, hCY.2.1, hCY.2.2⟩

/-- Witness for claim C5 at a concrete landscape source. -/
theorem C5_thumbnail_geometry_witness :
    (1 ≤ 4 ∧ 1 ≤ 3 ∧ 1 ≤ 2) ∧
    ((thumbGeometry 4 3 2).canvasW = (2 : Int) ∧
      (thumbGeometry 4 3 2).canvasH = (2 : Int) ∧
      (thumbGeometry 4 3 2).bgR = 0 ∧
      (thumbGeometry 4 3 2).bgG = 0 ∧
      (thumbGeometry 4 3 2).bgB = 0 ∧
      (thumbGeometry 4 3 2).jpegQuality = 80 ∧
      |(((thumbGeometry 4 3 2).newWidth : Int) : ℚ) -
          (4 : ℚ) * min ((2 : ℚ) / ((4 : ℕ) : ℚ)) ((2 : ℚ) / ((3 : ℕ) : ℚ))| < 1 ∧
      |(((thumbGeometry 4 3 2).newHeight : Int) : ℚ) -
          (3 : ℚ) * min ((2 : ℚ) / ((4 : ℕ) : ℚ)) ((2 : ℚ) / ((3 : ℕ) : ℚ))| < 1 ∧
      1 ≤ (thumbGeometry 4 3 2).newWidth ∧
      (thumbGeometry 4 3 2).newWidth ≤ (2 : Int) ∧
      1 ≤ (thumbGeometry 4 3 2).newHeight ∧
      (thumbGeometry 4 3 2).newHeight ≤ (2 : Int) ∧
      0 ≤ (thumbGeometry 4 3 2).dstX ∧
      (thumbGeometry 4 3 2).dstX ≤
        (2 : Int) - (thumbGeometry 4 3 2).newWidth - (thumbGeometry 4 3 2).dstX ∧
      (2 : Int) - (thumbGeometry 4 3 2).newWidth - (thumbGeometry 4 3 2).dstX ≤
        (thumbGeometry 4 3 2).dstX + 1 ∧
      0 ≤ (thumbGeometry 4 3 2).dstY ∧
      (thumbGeometry 4 3 2).dstY ≤
        (2 : Int) - (thumbGeometry 4 3 2).newHeight - (thumbGeometry 4 3 2).dstY ∧
      (2 : Int) - (thumbGeometry 4 3 2).newHeight - (thumbGeometry 4 3 2).dstY ≤
        (thumbGeometry 4 3 2).dstY + 1) :=
  ⟨⟨by decide, by decide, by decide⟩, by
    have hmain := C5_thumbnail_geometry 4 3 2 (by decide) (by decide) (by decide)
    push_cast at hmain ⊢
    exact hmain⟩

/-! Theorems about UUID generation. -/

/-- Both hex digits of a byte are lowercase hexadecimal characters. -/
theorem byteHexOk : ∀ x < 256, isLowerHexDigit (Nat.digitChar (x / 16)) = true ∧
    isLowerHexDigit (Nat.digitChar (x % 16)) = true := by decide

/-- Forcing the version nibble keeps the byte in range. -/
theorem setVersionByte_lt : ∀ x < 256, ((x.land 15).lor 64) < 256 := by decide

/-- Forcing the variant bits keeps the byte in range. -/
theorem setVariantByte_lt : ∀ x < 256, ((x.land 63).lor 128) < 256 := by decide

/-- The high nibble of the version byte is always four. -/
theorem setVersionByte_div : ∀ x < 256, ((x.land 15).lor 64) / 16 = 4 := by decide

/-- The high nibble of the variant byte is eight, nine, ten or eleven. -/
theorem setVariantByte_div : ∀ x < 256,
    ((x.land 63).lor 128) / 16 = 8 ∨ ((x.land 63).lor 128) / 16 = 9 ∨
    ((x.land 63).lor 128) / 16 = 10 ∨ ((x.land 63).lor 128) / 16 = 11 := by decide

/-- Hex encoding of in-range bytes yields lowercase hexadecimal characters. -/
theorem mem_bytesToHex (bs : List Nat) (hbs : ∀ b ∈ bs, b < 256) :
    ∀ c ∈ bytesToHex bs, isLowerHexDigit c = true := by
  induction bs with
  | nil => simp [bytesToHex]
  | cons b rest ih =>
    intro c hc
    simp only [bytesToHex, List.flatMap_cons] at hc
    have hb := hbs b (List.mem_cons_self b rest)
    rcases List.mem_append.mp hc with hc | hc
    · rcases List.mem_cons.mp hc with rfl | hc
      · exact (byteHexOk b hb).1
      · rcases List.mem_cons.mp hc with rfl | hc
        · exact (byteHexOk b hb).2
        · simp at hc
    · exact ih (fun x hx => hbs x (List.mem_cons_of_mem b hx)) c hc

/-- A list of length sixteen is sixteen explicit elements. -/
theorem exists_sixteen {α : Type} (l : List α) (h : l.length = 16) :
    ∃ b0 b1 b2 b3 b4 b5 b6 b7 b8 b9 b10 b11 b12 b13 b14 b15 : α,
      l = [b0, b1, b2, b3, b4, b5, b6, b7, b8, b9, b10, b11, b12, b13, b14, b15] := by
  rcases l with _ | ⟨b0, l⟩; · simp at h
  rcases l with _ | ⟨b1, l⟩; · simp at h
  rcases l with _ | ⟨b2, l⟩; · simp at h
  rcases l with _ | ⟨b3, l⟩; · simp at h
  rcases l with _ | ⟨b4, l⟩; · simp at h
  rcases l with _ | ⟨b5, l⟩; · simp at h
  rcases l with _ | ⟨b6, l⟩; · simp at h
  rcases l with _ | ⟨b7, l⟩; · simp at h
  rcases l with _ | ⟨b8, l⟩; · simp at h
  rcases l with _ | ⟨b9, l⟩; · simp at h
  rcases l with _ | ⟨b10, l⟩; · simp at h
  rcases l with _ | ⟨b11, l⟩; · simp at h
  rcases l with _ | ⟨b12, l⟩; · simp at h
  rcases l with _ | ⟨b13, l⟩; · simp at h
  rcases l with _ | ⟨b14, l⟩; · simp at h
  rcases l with _ | ⟨b15, l⟩; · simp at h
  rcases l with _ | ⟨b16, l⟩
  · exact ⟨b0, b1, b2, b3, b4, b5, b6, b7, b8, b9, b10, b11, b12, b13, b14, b15, rfl⟩
  · simp at h

/-- Claim C10 (confirmed): on sixteen in-range random bytes, generate_uuid
produces a thirty-six character identifier in the dashed 8-4-4-4-12 lowercase
hexadecimal layout whose third group starts with the version digit four and
whose fourth group starts with one of the variant digits eight, nine, a, b. -/
theorem C10_uuid_format (bytes : List Nat) (hlen : bytes.length = 16)
    (hb : ∀ b ∈ bytes, b < 256) :
    ∃ g1 g2 g3 g4 g5 : List Char,
      generate_uuid bytes = g1 ++ '-' :: (g2 ++ '-' :: (g3 ++ '-' :: (g4 ++ '-' :: g5))) ∧
      g1.length = 8 ∧ g2.length = 4 ∧ g3.length = 4 ∧ g4.length = 4 ∧ g5.length = 12 ∧
      (generate_uuid bytes).length = 36 ∧
      (∀ c ∈ g1 ++ g2 ++ g3 ++ g4 ++ g5, isLowerHexDigit c = true) ∧
      (∃ c3 r3, g3 = c3 :: r3 ∧ c3 = '4') ∧
      (∃ c4 r4, g4 = c4 :: r4 ∧ (c4 = '8' ∨ c4 = '9' ∨ c4 = 'a' ∨ c4 = 'b')) := by
  obtain ⟨b0, b1, b2, b3, b4, b5, b6, b7, b8, b9, b10, b11, b12, b13, b14, b15, rfl⟩ :=
    exists_sixteen bytes hlen
  simp only [List.mem_cons, List.not_mem_nil, or_false, forall_eq_or_imp, forall_eq] at hb
  obtain ⟨h0, h1, h2, h3, h4, h5, h6, h7, h8, h9, h10, h11, h12, h13, h14, h15⟩ := hb
  refine ⟨[Nat.digitChar (b0 / 16), Nat.digitChar (b0 % 16), Nat.digitChar (b1 / 16),
      Nat.digitChar (b1 % 16), Nat.digitChar (b2 / 16), Nat.digitChar (b2 % 16),
      Nat.digitChar (b3 / 16), Nat.digitChar (b3 % 16)],
    [Nat.digitChar (b4 / 16), Nat.digitChar (b4 % 16), Nat.digitChar (b5 / 16),
      Nat.digitChar (b5 % 16)],
    [Nat.digitChar (((b6.land 15).lor 64) / 16), Nat.digitChar (((b6.land 15).lor 64) % 16),
      Nat.digitChar (b7 / 16), Nat.digitChar (b7 % 16)],
    [Nat.digitChar (((b8.land 63).lor 128) / 16), Nat.digitChar (((b8.land 63).lor 128) % 16),
      Nat.digitChar (b9 / 16), Nat.digitChar (b9 % 16)],
    [Nat.digitChar (b10 / 16), Nat.digitChar (b10 % 16), Nat.digitChar (b11 / 16),
      Nat.digitChar (b11 % 16), Nat.digitChar (b12 / 16), Nat.digitChar (b12 % 16),
      Nat.digitChar (b13 / 16), Nat.digitChar (b13 % 16), Nat.digitChar (b14 / 16),
      Nat.digitChar (b14 % 16), Nat.digitChar (b15 / 16), Nat.digitChar (b15 % 16)],
    rfl, rfl, rfl, rfl, rfl, rfl, rfl, ?_, ⟨_, _, rfl, ?_⟩, ⟨_, _, rfl, ?_⟩⟩
  · intro c hc
    refine mem_bytesToHex
      (setUuidBits [b0, b1, b2, b3, b4, b5, b6, b7, b8, b9, b10, b11, b12, b13, b14, b15])
      ?_ c hc
    intro x hx
    have hset : setUuidBits [b0, b1, b2, b3, b4, b5, b6, b7, b8, b9, b10, b11, b12, b13,
        b14, b15] =
        [b0, b1, b2, b3, b4, b5, (b6.land 15).lor 64, b7, (b8.land 63).lor 128, b9, b10,
          b11, b12, b13, b14, b15] := rfl
    rw [hset] at hx
    simp only [List.mem_cons, List.not_mem_nil, or_false] at hx
    rcases hx with rfl | rfl | rfl | rfl | rfl | rfl | rfl | rfl | rfl | rfl | rfl | rfl |
      rfl | rfl | rfl | rfl <;>
      first
        | omega
        | (exact setVersionByte_lt b6 h6)
        | (exact setVariantByte_lt b8 h8)
  · rw [setVersionByte_div b6 h6]
    decide
  · rcases setVariantByte_div b8 h8 with hv | hv | hv | hv <;> rw [hv] <;> decide

/-- Witness for claim C10 on sixteen concrete bytes. -/
theorem C10_uuid_format_witness :
    (([0, 1, 2, 3, 4, 5, 6, 7, 8, 9, 10, 11, 12, 13, 14, 15] : List Nat).length = 16 ∧
      ∀ b ∈ ([0, 1, 2, 3, 4, 5, 6, 7, 8, 9, 10, 11, 12, 13, 14, 15] : List Nat), b < 256) ∧
    (∃ g1 g2 g3 g4 g5 : List Char,
      generate_uuid [0, 1, 2, 3, 4, 5, 6, 7, 8, 9, 10, 11, 12, 13, 14, 15] =
        g1 ++ '-' :: (g2 ++ '-' :: (g3 ++ '-' :: (g4 ++ '-' :: g5))) ∧
      g1.length = 8 ∧ g2.length = 4 ∧ g3.length = 4 ∧ g4.length = 4 ∧ g5.length = 12 ∧
      (generate_uuid [0, 1, 2, 3, 4, 5, 6, 7, 8, 9, 10, 11, 12, 13, 14, 15]).length = 36 ∧
      (∀ c ∈ g1 ++ g2 ++ g3 ++ g4 ++ g5, isLowerHexDigit c = true) ∧
      (∃ c3 r3, g3 = c3 :: r3 ∧ c3 = '4') ∧
      (∃ c4 r4, g4 = c4 :: r4 ∧ (c4 = '8' ∨ c4 = '9' ∨ c4 = 'a' ∨ c4 = 'b'))) :=
  ⟨⟨rfl, by decide⟩, C10_uuid_format _ rfl (by decide)⟩

/-! Theorems about archive construction. -/

/-- A file entry is a file entry. -/
theorem isFileEntry_file (p : String) : isFileEntry (ZipEntry.fileEntry p) = true := rfl

/-- A directory entry is not a file entry. -/
theorem isFileEntry_dir (p : String) : isFileEntry (ZipEntry.dirEntry p) = false := rfl

/-- Entries contributed by a directory of plain files: one file entry per file,
no directory entries, every path under the prefix. -/
theorem subEntriesList_files_props (pre : String) (L : List FsTree)
    (hL : ∀ t ∈ L, ∃ n, t = FsTree.file n) :
    (subEntriesList pre L).countP isFileEntry = L.length ∧
    (subEntriesList pre L).filter (fun e => !(isFileEntry e)) = [] ∧
    (∀ e ∈ subEntriesList pre L, ∃ s, entryPath e = pre ++ "/" ++ s) := by
  induction L with
  | nil => simp [subEntriesList]
  | cons t ts ih =>
    obtain ⟨n, rfl⟩ := hL t (List.mem_cons_self t ts)
    obtain ⟨hc, hf, hp⟩ := ih (fun x hx => hL x (List.mem_cons_of_mem _ hx))
    refine ⟨?_, ?_, ?_⟩
    · simp [subEntriesList, List.countP_cons, isFileEntry_file, hc]
    · simp [subEntriesList, List.filter_cons, isFileEntry_file, hf]
    · intro e he
      simp only [subEntriesList] at he
      rcases List.mem_cons.mp he with rfl | he
      · exact ⟨n, rfl⟩
      · exact hp e he

/-- Claim C9 (confirmed): for an album folder holding files in its two tier
subfolders, add_folder_to_zip emits exactly one file entry per stored file plus
one directory entry per tier subfolder, every entry placed under the album's
top-level zip folder. -/
theorem C9_archive_completeness (albumName zipPath : String) (L M : List FsTree)
    (hL : ∀ t ∈ L, ∃ n, t = FsTree.file n) (hM : ∀ t ∈ M, ∃ n, t = FsTree.file n) :
    (add_folder_to_zip (some (FsTree.dir albumName
        [FsTree.dir ("light") L, FsTree.dir ("max") M])) zipPath).countP isFileEntry =
      L.length + M.length ∧
    (add_folder_to_zip (some (FsTree.dir albumName
        [FsTree.dir ("light") L, FsTree.dir ("max") M])) zipPath).filter
        (fun e => !(isFileEntry e)) =
      [ZipEntry.dirEntry (zipPath ++ "/" ++ ("light")),
        ZipEntry.dirEntry (zipPath ++ "/" ++ ("max"))] ∧
    (∀ e ∈ add_folder_to_zip (some (FsTree.dir albumName
        [FsTree.dir ("light") L, FsTree.dir ("max") M])) zipPath,
      ∃ s, entryPath e = zipPath ++ "/" ++ s) := by
  obtain ⟨hcL, hfL, hpL⟩ := subEntriesList_files_props (zipPath ++ "/" ++ ("light")) L hL
  obtain ⟨hcM, hfM, hpM⟩ := subEntriesList_files_props (zipPath ++ "/" ++ ("max")) M hM
  have hsub : add_folder_to_zip (some (FsTree.dir albumName
      [FsTree.dir ("light") L, FsTree.dir ("max") M])) zipPath =
      ZipEntry.dirEntry (zipPath ++ "/" ++ ("light")) ::
        (subEntriesList (zipPath ++ "/" ++ ("light")) L ++
          (ZipEntry.dirEntry (zipPath ++ "/" ++ ("max")) ::
            subEntriesList (zipPath ++ "/" ++ ("max")) M)) := by
    simp [add_folder_to_zip, subEntriesList]
  rw [hsub]
  refine ⟨?_, ?_, ?_⟩
  · simp [List.countP_cons, List.countP_append, hcL, hcM, isFileEntry_dir]
  · simp [List.filter_cons, List.filter_append, hfL, hfM, isFileEntry_dir]
  · intro e he
    rcases List.mem_cons.mp he with rfl | he
    · exact ⟨("light"), rfl⟩
    rcases List.mem_append.mp he with he | he
    · obtain ⟨s, hs⟩ := hpL e he
      refine ⟨("light") ++ "/" ++ s, ?_⟩
      rw [hs]
      simp only [String.append_assoc]
    · rcases List.mem_cons.mp he with rfl | he
      · exact ⟨("max"), rfl⟩
      · obtain ⟨s, hs⟩ := hpM e he
        refine ⟨("max") ++ "/" ++ s, ?_⟩
        rw [hs]
        simp only [String.append_assoc]

/-- Witness for claim C9: an album with two light files and one max file. -/
theorem C9_archive_completeness_witness :
    (add_folder_to_zip (some (FsTree.dir ("Album1")
        [FsTree.dir ("light") [FsTree.file ("a.jpg"), FsTree.file ("b.jpg")],
          FsTree.dir ("max") [FsTree.file ("c.jpg")]])) ("Album1")).countP isFileEntry = 3 ∧
    (add_folder_to_zip (some (FsTree.dir ("Album1")
        [FsTree.dir ("light") [FsTree.file ("a.jpg"), FsTree.file ("b.jpg")],
          FsTree.dir ("max") [FsTree.file ("c.jpg")]])) ("Album1")).filter
        (fun e => !(isFileEntry e)) =
      [ZipEntry.dirEntry (("Album1") ++ "/" ++ ("light")),
        ZipEntry.dirEntry (("Album1") ++ "/" ++ ("max"))] ∧
    (∀ e ∈ add_folder_to_zip (some (FsTree.dir ("Album1")
        [FsTree.dir ("light") [FsTree.file ("a.jpg"), FsTree.file ("b.jpg")],
          FsTree.dir ("max") [FsTree.file ("c.jpg")]])) ("Album1"),
      ∃ s, entryPath e = ("Album1") ++ "/" ++ s) :=
  C9_archive_completeness ("Album1") ("Album1")
    [FsTree.file ("a.jpg"), FsTree.file ("b.jpg")] [FsTree.file ("c.jpg")]
    (by
      intro t ht
      simp only [List.mem_cons, List.not_mem_nil, or_false] at ht
      rcases ht with rfl | rfl
      · exact ⟨("a.jpg"), rfl⟩
      · exact ⟨("b.jpg"), rfl⟩)
    (by
      intro t ht
      simp only [List.mem_cons, List.not_mem_nil, or_false] at ht
      rcases ht with rfl
      exact ⟨("c.jpg"), rfl⟩)

/-! Theorems about archive streaming. -/

/-- Claim C4 (corrected): an album folder holding only an empty tier subfolder
yields zero file entries, yet the download does not fail with the empty-archive
error and output is emitted, contradicting the claim that zero files added
always produces EmptyArchive with nothing sent. -/
theorem C4_claim_counterexample :
    (add_folder_to_zip (some (FsTree.dir ("album") [FsTree.dir ("light") []]))
        ("album")).countP isFileEntry = 0 ∧
    (stream_zip (add_folder_to_zip (some (FsTree.dir ("album") [FsTree.dir ("light") []]))
        ("album")) ("album.zip")).2 = none ∧
    (stream_zip (add_folder_to_zip (some (FsTree.dir ("album") [FsTree.dir ("light") []]))
        ("album")) ("album.zip")).1 ≠ [] := by
  have hent : add_folder_to_zip (some (FsTree.dir ("album") [FsTree.dir ("light") []]))
      ("album") = [ZipEntry.dirEntry ("album" ++ "/" ++ "light")] := by
    simp [add_folder_to_zip, subEntriesList]
  rw [hent]
  refine ⟨by decide, by decide, by decide⟩

/-- Claim C4 (amended): when zero entries are added to the archive (for
example, every requested album folder is missing, not a directory, or holds
nothing at all), the download fails with the empty-archive error and no header
or body event is emitted; an album folder holding only empty tier subfolders
instead contributes directory entries and streams a folder-only archive. -/
theorem C4_empty_archive (albums : List (Option FsTree × String)) (fn : String)
    (h : ∀ a ∈ albums, add_folder_to_zip a.1 a.2 = []) :
    stream_zip (albums.flatMap (fun a => add_folder_to_zip a.1 a.2)) fn =
      ([], some StreamError.emptyArchive) := by
  have hnil : albums.flatMap (fun a => add_folder_to_zip a.1 a.2) = [] :=
    List.flatMap_eq_nil_iff.mpr h
  rw [hnil]
  rfl

/-- Witness for claim C4: a missing album, a fully empty album folder and a
non-directory path together contribute nothing, so the request fails with the
empty-archive error and emits no event. -/
theorem C4_empty_archive_witness :
    stream_zip (([(none, ("gone")), (some (FsTree.dir ("empty") []), ("empty")),
        (some (FsTree.file ("stray.txt")), ("stray"))] :
          List (Option FsTree × String)).flatMap
        (fun a => add_folder_to_zip a.1 a.2)) ("x.zip") =
      ([], some StreamError.emptyArchive) :=
  C4_empty_archive [(none, ("gone")), (some (FsTree.dir ("empty") []), ("empty")),
      (some (FsTree.file ("stray.txt")), ("stray"))] ("x.zip")
    (by
      intro a ha
      simp only [List.mem_cons, List.not_mem_nil, or_false] at ha
      rcases ha with rfl | rfl | rfl
      · simp [add_folder_to_zip]
      · simp [add_folder_to_zip, subEntriesList]
      · simp [add_folder_to_zip])

/-! Theorems about thumbnail failure modes. -/

/-- Claim C7 (code bug): for any extension outside the allowed set the code
raises the structured unsupported-type error and produces no thumbnail; but for
an allowed extension whose bytes fail to decode, the unchecked false from the
GD decoder reaches imagesx and raises an uncaught TypeError (modelled as
gdTypeError) instead of the structured DecodeFailure the specification
requires; no thumbnail is produced in either case. -/
theorem C7_thumbnail_failure_modes (ext : List Char) (decoded : Option (Nat × Nat))
    (webpAvailable : Bool) (thumbDir thumbBase : String) (targetSize : Nat) :
    (lowerStr ext ∉ allowedThumbExts →
      create_thumbnail ext decoded webpAvailable thumbDir thumbBase targetSize =
        .error ThumbFailure.unsupportedExtension) ∧
    (lowerStr ext ∈ allowedThumbExts → decoded = none → webpAvailable = true →
      create_thumbnail ext decoded webpAvailable thumbDir thumbBase targetSize =
        .error ThumbFailure.gdTypeError) := by
  constructor
  · intro hnot
    simp only [allowedThumbExts, List.mem_cons, List.not_mem_nil, or_false] at hnot
    push_neg at hnot
    obtain ⟨h1, h2, h3, h4, h5⟩ := hnot
    have b1 : (lowerStr ext == ("jpg").data) = false := by simp [h1]
    have b2 : (lowerStr ext == ("jpeg").data) = false := by simp [h2]
    have b3 : (lowerStr ext == ("png").data) = false := by simp [h3]
    have b4 : (lowerStr ext == ("webp").data) = false := by simp [h4]
    have b5 : (lowerStr ext == ("gif").data) = false := by simp [h5]
    simp [create_thumbnail, b1, b2, b3, b4, b5]
  · intro hmem hdec hwa
    subst hdec
    subst hwa
    simp only [allowedThumbExts, List.mem_cons, List.not_mem_nil, or_false] at hmem
    rcases hmem with h | h | h | h | h <;>
      simp [create_thumbnail, h, thumbFromDecode]

/-- Witness for claim C7: a bitmap extension is rejected as unsupported, and a
jpeg whose bytes fail to decode ends in the type error, with no thumbnail. -/
theorem C7_thumbnail_failure_modes_witness :
    (lowerStr (("bmp").data) ∉ allowedThumbExts ∧
      create_thumbnail (("bmp").data) (some (10, 10)) true ("thumbs/a") ("x") 300 =
        .error ThumbFailure.unsupportedExtension) ∧
    (lowerStr (("jpg").data) ∈ allowedThumbExts ∧
      create_thumbnail (("jpg").data) none true ("thumbs/a") ("x") 300 =
        .error ThumbFailure.gdTypeError) :=
  ⟨⟨by decide,
    (C7_thumbnail_failure_modes (("bmp").data) (some (10, 10)) true ("thumbs/a") ("x")
      300).1 (by decide)⟩,
   ⟨by decide,
    (C7_thumbnail_failure_modes (("jpg").data) none true ("thumbs/a") ("x") 300).2
      (by decide) rfl rfl⟩⟩

/-! Theorems about collision-free storage names. -/

/-- Digit characters are injective below ten. -/
theorem digitChar_inj_lt : ∀ a < 10, ∀ b < 10, Nat.digitChar a = Nat.digitChar b → a = b := by
  decide

/-- Mapping digit characters over digit lists is injective. -/
theorem map_digitChar_inj : ∀ l1 l2 : List Nat, (∀ d ∈ l1, d < 10) → (∀ d ∈ l2, d < 10) →
    l1.map Nat.digitChar = l2.map Nat.digitChar → l1 = l2 := by
  intro l1
  induction l1 with
  | nil =>
    intro l2 _ _ h
    cases l2 with
    | nil => rfl
    | cons b t => simp at h
  | cons a t ih =>
    intro l2 h1 h2 h
    cases l2 with
    | nil => simp at h
    | cons b t2 =>
      simp only [List.map_cons, List.cons.injEq] at h
      have hab := digitChar_inj_lt a (h1 a (List.mem_cons_self a t)) b
        (h2 b (List.mem_cons_self b t2)) h.1
      subst hab
      rw [ih t2 (fun d hd => h1 d (List.mem_cons_of_mem a hd))
        (fun d hd => h2 d (List.mem_cons_of_mem a hd)) h.2]

/-- The decimal rendering of naturals is injective. -/
theorem natToDec_inj (a b : Nat) (h : natToDec a = natToDec b) : a = b := by
  unfold natToDec at h
  by_cases ha : a = 0 <;> by_cases hb : b = 0
  · omega
  · rw [if_pos ha, if_neg hb] at h
    have h2 : (Nat.digits 10 b).map Nat.digitChar = ['0'] := by
      have := congrArg List.reverse h
      simpa using this.symm
    cases hd : Nat.digits 10 b with
    | nil => rw [hd] at h2; simp at h2
    | cons d t =>
      rw [hd] at h2
      simp only [List.map_cons, List.cons.injEq, List.map_eq_nil_iff] at h2
      have hdlt : d < 10 := Nat.digits_lt_base (by norm_num) (hd ▸ List.mem_cons_self d t)
      have hd0 : d = 0 := digitChar_inj_lt d hdlt 0 (by norm_num) h2.1
      have hb0 : b = 0 := by
        have := Nat.ofDigits_digits 10 b
        rw [hd, hd0, h2.2] at this
        simpa [Nat.ofDigits] using this.symm
      exact absurd hb0 hb
  · rw [if_neg ha, if_pos hb] at h
    have h2 : (Nat.digits 10 a).map Nat.digitChar = ['0'] := by
      have := congrArg List.reverse h
      simpa using this
    cases hd : Nat.digits 10 a with
    | nil => rw [hd] at h2; simp at h2
    | cons d t =>
      rw [hd] at h2
      simp only [List.map_cons, List.cons.injEq, List.map_eq_nil_iff] at h2
      have hdlt : d < 10 := Nat.digits_lt_base (by norm_num) (hd ▸ List.mem_cons_self d t)
      have hd0 : d = 0 := digitChar_inj_lt d hdlt 0 (by norm_num) h2.1
      have ha0 : a = 0 := by
        have := Nat.ofDigits_digits 10 a
        rw [hd, hd0, h2.2] at this
        simpa [Nat.ofDigits] using this.symm
      exact absurd ha0 ha
  · rw [if_neg ha, if_neg hb] at h
    have hrev := congrArg List.reverse h
    simp only [List.reverse_reverse] at hrev
    have := map_digitChar_inj (Nat.digits 10 a) (Nat.digits 10 b)
      (fun d hd => Nat.digits_lt_base (by norm_num) hd)
      (fun d hd => Nat.digits_lt_base (by norm_num) hd) hrev
    have h2 := congrArg (Nat.ofDigits 10) this
    rwa [Nat.ofDigits_digits, Nat.ofDigits_digits] at h2

/-- The suffixed collision candidates are injective in the counter. -/
theorem suffixedName_inj (base ext : List Char) (a b : Nat)
    (h : suffixedName base ext a = suffixedName base ext b) : a = b := by
  unfold suffixedName at h
  by_cases hext : (ext == ([] : List Char)) = true
  · rw [if_pos hext, if_pos hext] at h
    simp only [List.append_assoc] at h
    have h1 := List.append_cancel_left h
    have h2 := List.append_cancel_left h1
    have h3 := List.append_cancel_right h2
    exact natToDec_inj a b h3
  · rw [if_neg hext, if_neg hext] at h
    simp only [List.append_assoc] at h
    have h1 := List.append_cancel_left h
    have h2 := List.append_cancel_left h1
    have h3 := List.append_cancel_right h2
    exact natToDec_inj a b h3

/-- The decimal rendering is never empty. -/
theorem natToDec_ne_nil (n : Nat) : natToDec n ≠ [] := by
  unfold natToDec
  by_cases hn : n = 0
  · simp [hn]
  · rw [if_neg hn]
    simp only [ne_eq, List.reverse_eq_nil_iff, List.map_eq_nil_iff]
    exact Nat.digits_ne_nil_iff_ne_zero.mpr hn

/-- The name is at most one character longer than base plus extension. -/
theorem pathinfo_length (name : List Char) :
    name.length ≤ (pathinfoSplit name).1.length + (pathinfoSplit name).2.length + 1 := by
  unfold pathinfoSplit
  rcases hsp : name.reverse.span (fun c => !(c == '.')) with ⟨ta, tb⟩
  have hspan := @List.span_eq_take_drop _ (fun c => !(c == '.')) name.reverse
  rw [hsp] at hspan
  have h1 : ta = name.reverse.takeWhile (fun c => !(c == '.')) := by
    exact congrArg Prod.fst hspan
  have h2 : tb = name.reverse.dropWhile (fun c => !(c == '.')) := by
    exact congrArg Prod.snd hspan
  have hsplit : ta ++ tb = name.reverse := by
    rw [h1, h2]
    exact List.takeWhile_append_dropWhile (fun c => !(c == '.')) name.reverse
  cases tb with
  | nil =>
    simp
  | cons d rest =>
    have hlen : name.length = ta.length + (rest.length + 1) := by
      have := congrArg List.length hsplit
      simpa using this.symm
    simp only [List.length_reverse]
    omega

/-- A filename is never equal to one of its suffixed collision candidates. -/
theorem filename_ne_suffixedName (filename : List Char) (n : Nat) :
    filename ≠ suffixedName (pathinfoSplit filename).1 (pathinfoSplit filename).2 n := by
  intro hcon
  have hlen := congrArg List.length hcon
  have hp := pathinfo_length filename
  have hd : 1 ≤ (natToDec n).length := List.length_pos.mpr (natToDec_ne_nil n)
  have hsp : (" (").data.length = 2 := rfl
  unfold suffixedName at hlen
  by_cases hext : ((pathinfoSplit filename).2 == ([] : List Char)) = true
  · rw [if_pos hext] at hlen
    have hext0 : (pathinfoSplit filename).2.length = 0 := by
      rw [beq_iff_eq] at hext
      simp [hext]
    simp only [List.length_append, hsp, List.length_cons, List.length_nil] at hlen
    omega
  · rw [if_neg hext] at hlen
    simp only [List.length_append, hsp, List.length_cons, List.length_nil] at hlen
    omega

/-- Entering the loop body shifts the tested-candidate sequence by one. -/
theorem gufTested_shift (base ext cand : List Char) (counter j : Nat) :
    gufTested base ext (suffixedName base ext counter) (counter + 1) j =
      gufTested base ext cand counter (j + 1) := by
  cases j with
  | zero => simp [gufTested]
  | succ i =>
    simp only [gufTested]
    congr 1
    omega

/-- Whatever the loop returns is not already present in the directory. -/
theorem gufLoop_not_mem (dir : List (List Char)) (base ext : List Char) :
    ∀ (fuel : Nat) (cand : List Char) (counter : Nat) (r : List Char),
      gufLoop dir base ext cand counter fuel = some r → r ∉ dir := by
  intro fuel
  induction fuel with
  | zero =>
    intro cand counter r h
    simp [gufLoop] at h
  | succ f ih =>
    intro cand counter r h
    by_cases hc : cand ∈ dir
    · have heq : gufLoop dir base ext cand counter (f + 1) =
          gufLoop dir base ext (suffixedName base ext counter) (counter + 1) f := by
        simp [gufLoop, hc]
      rw [heq] at h
      exact ih _ _ _ h
    · have heq : gufLoop dir base ext cand counter (f + 1) = some cand := by
        simp [gufLoop, hc]
      rw [heq] at h
      injection h with h2
      rw [← h2]
      exact hc

/-- The loop returns the original name when free, otherwise the candidate with
the smallest free counter from its starting point. -/
theorem gufLoop_first (dir : List (List Char)) (base ext : List Char) :
    ∀ (fuel : Nat) (cand : List Char) (counter : Nat) (r : List Char),
      gufLoop dir base ext cand counter fuel = some r →
      (cand ∉ dir ∧ r = cand) ∨
      (cand ∈ dir ∧ ∃ n, counter ≤ n ∧ r = suffixedName base ext n ∧
        suffixedName base ext n ∉ dir ∧
        ∀ m, counter ≤ m → m < n → suffixedName base ext m ∈ dir) := by
  intro fuel
  induction fuel with
  | zero =>
    intro cand counter r h
    simp [gufLoop] at h
  | succ f ih =>
    intro cand counter r h
    by_cases hc : cand ∈ dir
    · right
      refine ⟨hc, ?_⟩
      have heq : gufLoop dir base ext cand counter (f + 1) =
          gufLoop dir base ext (suffixedName base ext counter) (counter + 1) f := by
        simp [gufLoop, hc]
      rw [heq] at h
      rcases ih (suffixedName base ext counter) (counter + 1) r h with
        ⟨hnot, rfl⟩ | ⟨hin, n, hn1, hrn, hnotin, hmin⟩
      · exact ⟨counter, le_refl _, rfl, hnot, fun m hm1 hm2 => absurd hm1 (by omega)⟩
      · refine ⟨n, by omega, hrn, hnotin, ?_⟩
        intro m hm1 hm2
        rcases Nat.eq_or_lt_of_le hm1 with heqm | hm2'
        · rw [← heqm]
          exact hin
        · exact hmin m (by omega) hm2
    · left
      have heq : gufLoop dir base ext cand counter (f + 1) = some cand := by
        simp [gufLoop, hc]
      rw [heq] at h
      injection h with h2
      exact ⟨hc, h2.symm⟩

/-- The loop succeeds whenever some tested candidate within its fuel is free. -/
theorem gufLoop_isSome (dir : List (List Char)) (base ext : List Char) :
    ∀ (fuel : Nat) (cand : List Char) (counter : Nat),
      (∃ k < fuel, gufTested base ext cand counter k ∉ dir) →
      (gufLoop dir base ext cand counter fuel).isSome := by
  intro fuel
  induction fuel with
  | zero =>
    rintro cand counter ⟨k, hk, -⟩
    omega
  | succ f ih =>
    rintro cand counter ⟨k, hk, hnot⟩
    by_cases hc : cand ∈ dir
    · have heq : gufLoop dir base ext cand counter (f + 1) =
          gufLoop dir base ext (suffixedName base ext counter) (counter + 1) f := by
        simp [gufLoop, hc]
      rw [heq]
      apply ih
      cases k with
      | zero => exact absurd hc (by simpa [gufTested] using hnot)
      | succ j =>
        refine ⟨j, by omega, ?_⟩
        rw [gufTested_shift base ext cand counter j]
        exact hnot
    · simp [gufLoop, hc]

/-- Pigeonhole: within directory-size plus one tested candidates, one is free. -/
theorem exists_tested_not_mem (dir : List (List Char)) (filename : List Char) :
    ∃ k < dir.length + 1,
      gufTested (pathinfoSplit filename).1 (pathinfoSplit filename).2 filename 1 k ∉ dir := by
  by_contra hcon
  push_neg at hcon
  have hinj : ∀ k1 < dir.length + 1, ∀ k2 < dir.length + 1,
      gufTested (pathinfoSplit filename).1 (pathinfoSplit filename).2 filename 1 k1 =
        gufTested (pathinfoSplit filename).1 (pathinfoSplit filename).2 filename 1 k2 →
      k1 = k2 := by
    intro k1 _ k2 _ heq
    cases k1 with
    | zero =>
      cases k2 with
      | zero => rfl
      | succ j =>
        simp only [gufTested] at heq
        exact absurd heq (filename_ne_suffixedName filename (1 + j))
    | succ i =>
      cases k2 with
      | zero =>
        simp only [gufTested] at heq
        exact absurd heq.symm (filename_ne_suffixedName filename (1 + i))
      | succ j =>
        simp only [gufTested] at heq
        have := suffixedName_inj _ _ _ _ heq
        omega
  have hcard : (Finset.range (dir.length + 1)).card ≤ dir.toFinset.card := by
    apply Finset.card_le_card_of_injOn
      (fun k => gufTested (pathinfoSplit filename).1 (pathinfoSplit filename).2 filename 1 k)
    · intro k hk
      rw [List.mem_toFinset]
      exact hcon k (Finset.mem_range.mp hk)
    · intro k1 h1 k2 h2 heq
      exact hinj k1 (Finset.mem_range.mp h1) k2 (Finset.mem_range.mp h2) heq
  rw [Finset.card_range] at hcard
  have hle := List.toFinset_card_le dir
  omega

/-- Claim C3 (confirmed): with fuel one more than the directory size the
collision loop always returns a name; the returned name is never one already
present, it is the request itself when free, otherwise the suffixed candidate
with the smallest unused counter; and storing the same cleaned name again after
recording the first result yields a different name. -/
theorem C3_collision_free_names (dir : List (List Char)) (filename : List Char) :
    ∃ r, get_unique_filename dir filename (dir.length + 1) = some r ∧
      r ∉ dir ∧
      (filename ∉ dir → r = filename) ∧
      (filename ∈ dir →
        ∃ n, 1 ≤ n ∧
          r = suffixedName (pathinfoSplit filename).1 (pathinfoSplit filename).2 n ∧
          suffixedName (pathinfoSplit filename).1 (pathinfoSplit filename).2 n ∉ dir ∧
          ∀ m, 1 ≤ m → m < n →
            suffixedName (pathinfoSplit filename).1 (pathinfoSplit filename).2 m ∈ dir) ∧
      (∀ fuel2 r2, get_unique_filename (r :: dir) filename fuel2 = some r2 → r2 ≠ r) := by
  obtain ⟨k, hk, hnot⟩ := exists_tested_not_mem dir filename
  have hsome : (gufLoop dir (pathinfoSplit filename).1 (pathinfoSplit filename).2 filename 1
      (dir.length + 1)).isSome :=
    gufLoop_isSome dir (pathinfoSplit filename).1 (pathinfoSplit filename).2
      (dir.length + 1) filename 1 ⟨k, hk, hnot⟩
  obtain ⟨r, hr⟩ := Option.isSome_iff_exists.mp hsome
  refine ⟨r, hr,
    gufLoop_not_mem dir (pathinfoSplit filename).1 (pathinfoSplit filename).2
      (dir.length + 1) filename 1 r hr, ?_, ?_, ?_⟩
  · intro hnm
    rcases gufLoop_first dir (pathinfoSplit filename).1 (pathinfoSplit filename).2
        (dir.length + 1) filename 1 r hr with ⟨-, rfl⟩ | ⟨hc, -⟩
    · rfl
    · exact absurd hc hnm
  · intro hm
    rcases gufLoop_first dir (pathinfoSplit filename).1 (pathinfoSplit filename).2
        (dir.length + 1) filename 1 r hr with ⟨hc, -⟩ | ⟨-, n, hn1, hrn, hnotin, hmin⟩
    · exact absurd hm hc
    · exact ⟨n, hn1, hrn, hnotin, hmin⟩
  · intro fuel2 r2 h2
    have hnm := gufLoop_not_mem (r :: dir) (pathinfoSplit filename).1
      (pathinfoSplit filename).2 fuel2 filename 1 r2 h2
    intro hcon
    exact hnm (hcon ▸ List.mem_cons_self r dir)

/-- Witness for claim C3 on a one-entry directory already holding the name. -/
theorem C3_collision_free_names_witness :
    ∃ r, get_unique_filename [("a.jpg").data] (("a.jpg").data)
        (([("a.jpg").data] : List (List Char)).length + 1) = some r ∧
      r ∉ [("a.jpg").data] ∧
      (("a.jpg").data ∉ [("a.jpg").data] → r = ("a.jpg").data) ∧
      (("a.jpg").data ∈ [("a.jpg").data] →
        ∃ n, 1 ≤ n ∧
          r = suffixedName (pathinfoSplit (("a.jpg").data)).1
              (pathinfoSplit (("a.jpg").data)).2 n ∧
          suffixedName (pathinfoSplit (("a.jpg").data)).1
              (pathinfoSplit (("a.jpg").data)).2 n ∉ [("a.jpg").data] ∧
          ∀ m, 1 ≤ m → m < n →
            suffixedName (pathinfoSplit (("a.jpg").data)).1
                (pathinfoSplit (("a.jpg").data)).2 m ∈ [("a.jpg").data]) ∧
      (∀ fuel2 r2, get_unique_filename (r :: [("a.jpg").data]) (("a.jpg").data) fuel2 =
          some r2 → r2 ≠ r) :=
  C3_collision_free_names [("a.jpg").data] (("a.jpg").data)

end Quintessence
